import Mathlib

/-!
Verification of the object-detection core of `edgeai-torchvision`:
box geometry (IoU), greedy non-maximum suppression, the anchor-relative
box coder, the SSDLite default-box generator, the SSDLite detection-head
channel contract, and the error behaviour of the model constructors and
the `DataListClassification` dataset loader.
-/

namespace EdgeaiTorchvision

/-! ## Box geometry

Modelled from the spec: the box-geometry operators (`box_area`, `box_iou`)
live in `torchvision/ops/boxes.py`, which is re-exported by
`torchvision/ops/__init__.py` but absent from the sources at hand; their
definitions follow §4.1 of the spec (area `(x_max-x_min)*(y_max-y_min)`,
IoU = intersection area / union area, with exact rational arithmetic
standing in for floating point). -/

/-- An axis-aligned rectangle in corner form `(x1, y1, x2, y2)`. -/
structure Box (α : Type) where
  x1 : α
  y1 : α
  x2 : α
  y2 : α
deriving DecidableEq, Repr

/-- Well-formedness from the spec's data model: `x_min ≤ x_max`, `y_min ≤ y_max`. -/
def Box.wellFormed {α : Type} [LE α] (b : Box α) : Prop := b.x1 ≤ b.x2 ∧ b.y1 ≤ b.y2

instance (b : Box ℚ) : Decidable b.wellFormed := by
  unfold Box.wellFormed; infer_instance

/-- Area of a box: `(x_max - x_min) * (y_max - y_min)`. -/
def box_area (b : Box ℚ) : ℚ := (b.x2 - b.x1) * (b.y2 - b.y1)

/-- Width of the intersection rectangle, clamped at zero. -/
def interW (a b : Box ℚ) : ℚ := max 0 (min a.x2 b.x2 - max a.x1 b.x1)

/-- Height of the intersection rectangle, clamped at zero. -/
def interH (a b : Box ℚ) : ℚ := max 0 (min a.y2 b.y2 - max a.y1 b.y1)

/-- Area of the intersection of two boxes. -/
def interArea (a b : Box ℚ) : ℚ := interW a b * interH a b

/-- Intersection over union: intersection area divided by union area
(`inter / (area a + area b - inter)`).  Rational division by zero is `0`,
matching the convention that fully degenerate pairs score `0`. -/
def box_iou (a b : Box ℚ) : ℚ :=
  interArea a b / (box_area a + box_area b - interArea a b)

/-- Two boxes do not overlap: the intersection is empty on some axis. -/
def Box.disjoint (a b : Box ℚ) : Prop :=
  min a.x2 b.x2 ≤ max a.x1 b.x1 ∨ min a.y2 b.y2 ≤ max a.y1 b.y1

theorem interW_comm (a b : Box ℚ) : interW a b = interW b a := by
  simp [interW, min_comm, max_comm]

theorem interH_comm (a b : Box ℚ) : interH a b = interH b a := by
  simp [interH, min_comm, max_comm]

theorem interArea_comm (a b : Box ℚ) : interArea a b = interArea b a := by
  simp [interArea, interW_comm, interH_comm]

theorem interArea_nonneg (a b : Box ℚ) : 0 ≤ interArea a b :=
  mul_nonneg (le_max_left 0 _) (le_max_left 0 _)

theorem interW_le_width (a b : Box ℚ) (ha : a.wellFormed) :
    interW a b ≤ a.x2 - a.x1 := by
  rcases ha with ⟨hx, _⟩
  apply max_le (by linarith)
  have h1 : min a.x2 b.x2 ≤ a.x2 := min_le_left _ _
  have h2 : a.x1 ≤ max a.x1 b.x1 := le_max_left _ _
  linarith

theorem interH_le_height (a b : Box ℚ) (ha : a.wellFormed) :
    interH a b ≤ a.y2 - a.y1 := by
  rcases ha with ⟨_, hy⟩
  apply max_le (by linarith)
  have h1 : min a.y2 b.y2 ≤ a.y2 := min_le_left _ _
  have h2 : a.y1 ≤ max a.y1 b.y1 := le_max_left _ _
  linarith

theorem interArea_le_area (a b : Box ℚ) (ha : a.wellFormed) :
    interArea a b ≤ box_area a := by
  have hW := interW_le_width a b ha
  have hH := interH_le_height a b ha
  have h0W : (0:ℚ) ≤ interW a b := le_max_left 0 _
  have h0H : (0:ℚ) ≤ interH a b := le_max_left 0 _
  calc interArea a b = interW a b * interH a b := rfl
    _ ≤ (a.x2 - a.x1) * (a.y2 - a.y1) := by
        apply mul_le_mul hW hH h0H (by linarith [ha.1])
    _ = box_area a := rfl

theorem box_area_nonneg (a : Box ℚ) (ha : a.wellFormed) : 0 ≤ box_area a :=
  mul_nonneg (by linarith [ha.1]) (by linarith [ha.2])

theorem box_iou_symm (a b : Box ℚ) : box_iou a b = box_iou b a := by
  simp [box_iou, interArea_comm]
  rw [add_comm (box_area a) (box_area b)]

theorem box_iou_nonneg (a b : Box ℚ) (ha : a.wellFormed) (hb : b.wellFormed) :
    0 ≤ box_iou a b := by
  have hI := interArea_nonneg a b
  have hIa := interArea_le_area a b ha
  have hBb := box_area_nonneg b hb
  exact div_nonneg hI (by linarith)

theorem box_iou_le_one (a b : Box ℚ) (ha : a.wellFormed) (hb : b.wellFormed) :
    box_iou a b ≤ 1 := by
  have hI := interArea_nonneg a b
  have hIa := interArea_le_area a b ha
  have hIb : interArea a b ≤ box_area b := by
    rw [interArea_comm]; exact interArea_le_area b a hb
  rcases lt_or_eq_of_le (show (0:ℚ) ≤ box_area a + box_area b - interArea a b by
      linarith) with hpos | hzero
  · rw [box_iou, div_le_one hpos]; linarith
  · rw [box_iou, ← hzero, div_zero]; norm_num

theorem box_iou_of_disjoint (a b : Box ℚ) (h : a.disjoint b) : box_iou a b = 0 := by
  rcases h with h | h
  · have : interW a b = 0 := max_eq_left (sub_nonpos_of_le h)
    simp [box_iou, interArea, this]
  · have : interH a b = 0 := max_eq_left (sub_nonpos_of_le h)
    simp [box_iou, interArea, this]

theorem box_iou_self (a : Box ℚ) (hw : a.x1 < a.x2) (hh : a.y1 < a.y2) :
    box_iou a a = 1 := by
  have hW : interW a a = a.x2 - a.x1 := by simp [interW]; linarith
  have hH : interH a a = a.y2 - a.y1 := by simp [interH]; linarith
  have hI : interArea a a = box_area a := by simp [interArea, hW, hH, box_area]
  have hpos : 0 < box_area a := mul_pos (by linarith) (by linarith)
  simp [box_iou, hI]
  exact div_self (ne_of_gt hpos)

/-! ## Suppression engine (NMS)

Modelled from the spec: `nms` lives in `torchvision/ops/boxes.py`, absent
from the sources at hand (`torchvision/ops/__init__.py` only re-exports it);
the algorithm follows §4.4 of the spec: stable sort by descending score,
then greedily accept the highest-scoring remaining candidate and discard
every remaining candidate whose IoU with it exceeds `τ`, optionally
truncating at `k` accepted boxes. -/

/-- A scored candidate: a box with its confidence score. -/
structure Det where
  box : Box ℚ
  score : ℚ
deriving DecidableEq, Repr

/-- Descending-score ordering on candidates. -/
def detGE (a b : Det) : Prop := b.score ≤ a.score

instance : DecidableRel detGE := fun a b => by unfold detGE; infer_instance

instance : IsTotal Det detGE := ⟨fun a b => le_total b.score a.score⟩

instance : IsTrans Det detGE := ⟨fun _ _ _ h1 h2 => le_trans h2 h1⟩

/-- Stable sort by descending score (insertion sort keeps tied candidates in
their original input order). -/
def sortByScore (l : List Det) : List Det := l.insertionSort detGE

/-- One greedy pass: accept the head, drop every remaining candidate whose
IoU with it exceeds `τ`, recurse.  The fuel starts at the list length and
dominates it throughout, so the `fuel = 0` arm is never hit from `nmsLoop`. -/
def nmsGo (τ : ℚ) : ℕ → List Det → List Det
  | _, [] => []
  | 0, _ :: _ => []
  | fuel + 1, d :: rest =>
      d :: nmsGo τ fuel (rest.filter fun e => box_iou d.box e.box ≤ τ)

/-- Greedy suppression of a sorted candidate list. -/
def nmsLoop (τ : ℚ) (l : List Det) : List Det := nmsGo τ l.length l

/-- Optional truncation at `k` results. -/
def truncOpt (k : Option ℕ) (l : List Det) : List Det :=
  match k with
  | none => l
  | some n => l.take n

/-- Non-maximum suppression: sort by descending score, greedily suppress at
IoU threshold `τ`, keep at most `k` detections when `k` is given. -/
def nms (dets : List Det) (τ : ℚ) (k : Option ℕ) : List Det :=
  truncOpt k (nmsLoop τ (sortByScore dets))

theorem nmsGo_nil (τ : ℚ) (fuel : ℕ) : nmsGo τ fuel [] = [] := by
  cases fuel <;> rfl

theorem nmsGo_sublist (τ : ℚ) : ∀ (fuel : ℕ) (l : List Det), (nmsGo τ fuel l).Sublist l
  | _, [] => by rw [nmsGo_nil]
  | 0, _ :: _ => List.nil_sublist _
  | fuel + 1, d :: rest => by
      rw [nmsGo]
      exact List.Sublist.cons₂ d
        ((nmsGo_sublist τ fuel _).trans (List.filter_sublist rest))

theorem nmsGo_pairwise_iou (τ : ℚ) :
    ∀ (fuel : ℕ) (l : List Det),
      (nmsGo τ fuel l).Pairwise (fun a b => box_iou a.box b.box ≤ τ)
  | _, [] => by rw [nmsGo_nil]; exact List.Pairwise.nil
  | 0, _ :: _ => List.Pairwise.nil
  | fuel + 1, d :: rest => by
      rw [nmsGo]
      refine List.Pairwise.cons (fun e he => ?_) (nmsGo_pairwise_iou τ fuel _)
      have hmem : e ∈ rest.filter fun e => box_iou d.box e.box ≤ τ :=
        (nmsGo_sublist τ fuel _).mem he
      have := List.of_mem_filter hmem
      exact of_decide_eq_true this

theorem nmsGo_keep_all (τ : ℚ) (h1 : 1 ≤ τ) :
    ∀ (fuel : ℕ) (l : List Det), l.length ≤ fuel →
      (∀ d ∈ l, d.box.wellFormed) → nmsGo τ fuel l = l
  | _, [], _, _ => by rw [nmsGo_nil]
  | 0, d :: rest, hlen, _ => by simp at hlen
  | fuel + 1, d :: rest, hlen, hwf => by
      rw [nmsGo]
      have hfilter : (rest.filter fun e => box_iou d.box e.box ≤ τ) = rest := by
        apply List.filter_eq_self.mpr
        intro e he
        apply decide_eq_true
        have hle1 : box_iou d.box e.box ≤ 1 :=
          box_iou_le_one _ _ (hwf d (List.mem_cons_self d rest))
            (hwf e (List.mem_cons_of_mem d he))
        linarith
      rw [hfilter, nmsGo_keep_all τ h1 fuel rest
        (Nat.le_of_succ_le_succ (by simpa using hlen))
        (fun e he => hwf e (List.mem_cons_of_mem d he))]

theorem nmsGo_neg_thresh (τ : ℚ) (hτ : τ < 0) (fuel : ℕ) (d : Det) (rest : List Det)
    (hwf : ∀ e ∈ d :: rest, e.box.wellFormed) :
    nmsGo τ (fuel + 1) (d :: rest) = [d] := by
  rw [nmsGo]
  have hfilter : (rest.filter fun e => box_iou d.box e.box ≤ τ) = [] := by
    apply List.filter_eq_nil_iff.mpr
    intro e he
    simp only [decide_eq_true_eq]
    have h0 : 0 ≤ box_iou d.box e.box :=
      box_iou_nonneg _ _ (hwf d (List.mem_cons_self d rest))
        (hwf e (List.mem_cons_of_mem d he))
    intro hle
    linarith
  rw [hfilter, nmsGo_nil]

theorem sortByScore_pairwise (l : List Det) : (sortByScore l).Pairwise detGE :=
  List.sorted_insertionSort detGE l

theorem sortByScore_perm (l : List Det) : (sortByScore l).Perm l :=
  List.perm_insertionSort detGE l

theorem truncOpt_sublist (k : Option ℕ) (l : List Det) : (truncOpt k l).Sublist l := by
  cases k with
  | none => exact List.Sublist.refl l
  | some n => exact List.take_sublist n l

theorem nms_sublist_sorted (dets : List Det) (τ : ℚ) (k : Option ℕ) :
    (nms dets τ k).Sublist (sortByScore dets) :=
  (truncOpt_sublist k _).trans (nmsGo_sublist τ _ _)

end EdgeaiTorchvision

namespace EdgeaiTorchvision

/-- C3: for every suppression input, the NMS output is a subset of the input,
ordered by descending score, no two retained boxes have IoU above `τ` (in
either argument order), and its length is at most the input length and at
most `k` when `k` is given. -/
theorem C3_nms_guarantees (dets : List Det) (τ : ℚ) (k : Option ℕ) :
    (∀ d ∈ nms dets τ k, d ∈ dets) ∧
    (nms dets τ k).Pairwise detGE ∧
    (nms dets τ k).Pairwise
      (fun a b => box_iou a.box b.box ≤ τ ∧ box_iou b.box a.box ≤ τ) ∧
    (nms dets τ k).length ≤ dets.length ∧
    (∀ n, k = some n → (nms dets τ k).length ≤ n) := by
  refine ⟨?_, ?_, ?_, ?_, ?_⟩
  · intro d hd
    have hs : d ∈ sortByScore dets := (nms_sublist_sorted dets τ k).mem hd
    exact (sortByScore_perm dets).mem_iff.mp hs
  · exact (sortByScore_pairwise dets).sublist (nms_sublist_sorted dets τ k)
  · have hone : (nmsLoop τ (sortByScore dets)).Pairwise
        (fun a b => box_iou a.box b.box ≤ τ) := nmsGo_pairwise_iou τ _ _
    have htrunc := hone.sublist (truncOpt_sublist k _)
    exact htrunc.imp fun h => ⟨h, by rwa [box_iou_symm]⟩
  · calc (nms dets τ k).length ≤ (sortByScore dets).length :=
          (nms_sublist_sorted dets τ k).length_le
      _ = dets.length := (sortByScore_perm dets).length_eq
  · intro n hk
    subst hk
    simp only [nms, truncOpt]
    exact List.length_take_le n (nmsLoop τ (sortByScore dets))

/-- Witness for C3 at a concrete input with `k = some 1`. -/
theorem C3_nms_guarantees_witness :
    (nms [⟨⟨0,0,1,1⟩, 1/2⟩, ⟨⟨0,0,1,1⟩, 3/4⟩] (1/2) (some 1)).length ≤ 1 :=
  (C3_nms_guarantees [⟨⟨0,0,1,1⟩, 1/2⟩, ⟨⟨0,0,1,1⟩, 3/4⟩] (1/2) (some 1)).2.2.2.2
    1 rfl

/-- C4 counterexample: at `τ = 0` two fully disjoint well-formed boxes are BOTH
kept (a disjoint pair has IoU `0`, which does not exceed the threshold), so the
claim that `τ ≤ 0` keeps only the single highest-scoring box is false. -/
theorem C4_nms_tau_zero_counterexample :
    (∀ d ∈ ([⟨⟨0,0,1,1⟩, 9/10⟩, ⟨⟨5,5,6,6⟩, 7/10⟩] : List Det), d.box.wellFormed) ∧
    nms [⟨⟨0,0,1,1⟩, 9/10⟩, ⟨⟨5,5,6,6⟩, 7/10⟩] 0 none
      = [⟨⟨0,0,1,1⟩, 9/10⟩, ⟨⟨5,5,6,6⟩, 7/10⟩] ∧
    (nms [⟨⟨0,0,1,1⟩, 9/10⟩, ⟨⟨5,5,6,6⟩, 7/10⟩] 0 none).length ≠ 1 := by
  have heval : nms [⟨⟨0,0,1,1⟩, 9/10⟩, ⟨⟨5,5,6,6⟩, 7/10⟩] 0 none
      = [⟨⟨0,0,1,1⟩, 9/10⟩, ⟨⟨5,5,6,6⟩, 7/10⟩] := by
    norm_num [nms, nmsLoop, nmsGo, truncOpt, sortByScore, List.insertionSort,
      List.orderedInsert, detGE, box_iou, interArea, interW, interH, box_area,
      min_def, max_def]
  refine ⟨?_, heval, by rw [heval]; norm_num⟩
  intro d hd
  fin_cases hd <;> constructor <;> norm_num [Box.wellFormed]

/-- C4 (amended): the suppression engine is a total function; an empty input
yields an empty output, a threshold `τ ≥ 1` suppresses nothing (all boxes kept
up to `k`), and a strictly negative threshold `τ < 0` keeps only the single
highest-scoring box regardless of overlap (at `τ = 0` boxes with zero IoU to
every kept box survive). -/
theorem C4_nms_edge_cases (dets : List Det) (τ : ℚ) (k : Option ℕ)
    (hwf : ∀ d ∈ dets, d.box.wellFormed) :
    nms [] τ k = [] ∧
    (1 ≤ τ → nms dets τ k = truncOpt k (sortByScore dets)) ∧
    (τ < 0 → nms dets τ none = (sortByScore dets).take 1) := by
  refine ⟨?_, ?_, ?_⟩
  · cases k <;> simp [nms, nmsLoop, sortByScore, nmsGo_nil, truncOpt]
  · intro h1
    have hwf' : ∀ d ∈ sortByScore dets, d.box.wellFormed := fun d hd =>
      hwf d ((sortByScore_perm dets).mem_iff.mp hd)
    unfold nms nmsLoop
    rw [nmsGo_keep_all τ h1 _ _ (Nat.le_refl _) hwf']
  · intro hτ
    have hwf' : ∀ d ∈ sortByScore dets, d.box.wellFormed := fun d hd =>
      hwf d ((sortByScore_perm dets).mem_iff.mp hd)
    unfold nms nmsLoop truncOpt
    cases hs : sortByScore dets with
    | nil => rw [nmsGo_nil]; rfl
    | cons d rest =>
        rw [show (d :: rest).length = rest.length + 1 from rfl,
          nmsGo_neg_thresh τ hτ rest.length d rest (hs ▸ hwf')]
        rfl

/-- Witness for C4 at concrete inputs: empty input, `τ = 1`, and `τ = -1`. -/
theorem C4_nms_edge_cases_witness :
    nms [] (1/2) none = [] ∧
    nms [⟨⟨0,0,1,1⟩, 3/4⟩, ⟨⟨5,5,6,6⟩, 1/4⟩] 1 none
      = truncOpt none (sortByScore [⟨⟨0,0,1,1⟩, 3/4⟩, ⟨⟨5,5,6,6⟩, 1/4⟩]) ∧
    nms [⟨⟨0,0,1,1⟩, 3/4⟩, ⟨⟨5,5,6,6⟩, 1/4⟩] (-1) none
      = (sortByScore [⟨⟨0,0,1,1⟩, 3/4⟩, ⟨⟨5,5,6,6⟩, 1/4⟩]).take 1 :=
  ⟨(C4_nms_edge_cases [] (1/2) none (by decide)).1,
   (C4_nms_edge_cases [⟨⟨0,0,1,1⟩, 3/4⟩, ⟨⟨5,5,6,6⟩, 1/4⟩] 1 none (by decide)).2.1
     (le_refl 1),
   (C4_nms_edge_cases [⟨⟨0,0,1,1⟩, 3/4⟩, ⟨⟨5,5,6,6⟩, 1/4⟩] (-1) none (by decide)).2.2
     (by norm_num)⟩

/-! ## Box coder

Modelled from the spec: the box coder (`BoxCoder.encode` / `decode`) lives in
`torchvision/models/detection/_utils.py`, which is imported by `ssdlite.py`
but absent from the sources at hand; the definitions follow §4.3 of the spec:
`dx = (gt_cx - a_cx) / a_w`, `dy = (gt_cy - a_cy) / a_h`,
`dw = ln(gt_w / a_w)`, `dh = ln(gt_h / a_h)`, with the decoder clamping
`dw, dh` from above at a bound `clip` before exponentiation.  Real arithmetic
stands in for floating point. -/

/-- Regression offsets `(dx, dy, dw, dh)`. -/
structure Offsets where
  dx : ℝ
  dy : ℝ
  dw : ℝ
  dh : ℝ

/-- Encode a ground-truth box relative to an anchor (both in corner form;
centers and sizes are derived inside, as in the source's reference form). -/
noncomputable def encode (gt anchor : Box ℝ) : Offsets :=
  let a_cx := (anchor.x1 + anchor.x2) / 2
  let a_cy := (anchor.y1 + anchor.y2) / 2
  let a_w := anchor.x2 - anchor.x1
  let a_h := anchor.y2 - anchor.y1
  let gt_cx := (gt.x1 + gt.x2) / 2
  let gt_cy := (gt.y1 + gt.y2) / 2
  let gt_w := gt.x2 - gt.x1
  let gt_h := gt.y2 - gt.y1
  ⟨(gt_cx - a_cx) / a_w, (gt_cy - a_cy) / a_h,
   Real.log (gt_w / a_w), Real.log (gt_h / a_h)⟩

/-- Decode offsets against an anchor: the inverse transform, guarding the
exponential by clamping `dw`, `dh` from above at `clip`. -/
noncomputable def decode (clip : ℝ) (o : Offsets) (anchor : Box ℝ) : Box ℝ :=
  let a_cx := (anchor.x1 + anchor.x2) / 2
  let a_cy := (anchor.y1 + anchor.y2) / 2
  let a_w := anchor.x2 - anchor.x1
  let a_h := anchor.y2 - anchor.y1
  let cx := o.dx * a_w + a_cx
  let cy := o.dy * a_h + a_cy
  let w := a_w * Real.exp (min o.dw clip)
  let h := a_h * Real.exp (min o.dh clip)
  ⟨cx - w / 2, cy - h / 2, cx + w / 2, cy + h / 2⟩

/-- Coordinatewise relative tolerance `|b.c - c.c| ≤ tol * |c.c|`. -/
def boxApprox (tol : ℝ) (b c : Box ℝ) : Prop :=
  |b.x1 - c.x1| ≤ tol * |c.x1| ∧ |b.y1 - c.y1| ≤ tol * |c.y1| ∧
  |b.x2 - c.x2| ≤ tol * |c.x2| ∧ |b.y2 - c.y2| ≤ tol * |c.y2|

/-- C2 counterexample: with clamp bound `clip = 1`, the anchor `(0,0,1,1)` and
the well-formed ground-truth box `(0,0,e²,1)` encode to `dw = 2`, which the
decoder clamps to `1`; the decoded box misses the ground truth by far more
than `1e-5` relative tolerance, so `decode (encode b a) a ≈ b` does not hold
for every well-formed pair. -/
theorem C2_decode_encode_counterexample :
    (Box.wellFormed (⟨0, 0, Real.exp 2, 1⟩ : Box ℝ) ∧
      Box.wellFormed (⟨0, 0, 1, 1⟩ : Box ℝ)) ∧
    ¬ boxApprox (1/100000)
        (decode 1 (encode ⟨0, 0, Real.exp 2, 1⟩ ⟨0, 0, 1, 1⟩) ⟨0, 0, 1, 1⟩)
        ⟨0, 0, Real.exp 2, 1⟩ := by
  have he2 : (0:ℝ) < Real.exp 2 := Real.exp_pos 2
  have h2e : (2:ℝ) ≤ Real.exp 1 := by
    have := Real.add_one_le_exp (1:ℝ)
    linarith
  have hee : Real.exp 2 = Real.exp 1 * Real.exp 1 := by
    rw [← Real.exp_add]; norm_num
  constructor
  · exact ⟨⟨le_of_lt he2, by norm_num⟩, ⟨by norm_num, by norm_num⟩⟩
  · intro happrox
    have hx2 := happrox.2.2.1
    have hdw : (encode ⟨0, 0, Real.exp 2, 1⟩ ⟨0, 0, 1, 1⟩).dw = 2 := by
      simp [encode, Real.log_exp]
    have hdx : (encode ⟨0, 0, Real.exp 2, 1⟩ ⟨0, 0, 1, 1⟩).dx = Real.exp 2 / 2 - 1/2 := by
      simp [encode]
      try ring
    have hmin : min ((encode ⟨0, 0, Real.exp 2, 1⟩ ⟨0, 0, 1, 1⟩).dw) (1:ℝ) = 1 := by
      rw [hdw]; norm_num
    have hx2val : (decode 1 (encode ⟨0, 0, Real.exp 2, 1⟩ ⟨0, 0, 1, 1⟩) ⟨0, 0, 1, 1⟩).x2
        = Real.exp 2 / 2 + Real.exp 1 / 2 := by
      simp only [decode, hmin, hdx]
      norm_num
    rw [hx2val] at hx2
    have habs1 : |Real.exp 2 / 2 + Real.exp 1 / 2 - Real.exp 2|
        = Real.exp 2 / 2 - Real.exp 1 / 2 := by
      rw [abs_of_nonpos (by nlinarith)]
      ring
    have habs2 : |Real.exp 2| = Real.exp 2 := abs_of_pos he2
    rw [habs1, habs2] at hx2
    nlinarith

/-- C2 (amended): for every anchor and ground-truth box with positive width
and height whose log-space size offsets stay within the decoder's clamp bound,
decoding the encoding returns the ground-truth box exactly (in particular
within any relative tolerance); boxes whose size ratio exceeds the clamp are
clamped and not recovered. -/
theorem C2_decode_encode_roundtrip (clip : ℝ) (gt anchor : Box ℝ)
    (haw : anchor.x1 < anchor.x2) (hah : anchor.y1 < anchor.y2)
    (hgw : gt.x1 < gt.x2) (hgh : gt.y1 < gt.y2)
    (hcw : Real.log ((gt.x2 - gt.x1) / (anchor.x2 - anchor.x1)) ≤ clip)
    (hch : Real.log ((gt.y2 - gt.y1) / (anchor.y2 - anchor.y1)) ≤ clip) :
    decode clip (encode gt anchor) anchor = gt := by
  have haw' : (0:ℝ) < anchor.x2 - anchor.x1 := by linarith
  have hah' : (0:ℝ) < anchor.y2 - anchor.y1 := by linarith
  have hgw' : (0:ℝ) < gt.x2 - gt.x1 := by linarith
  have hgh' : (0:ℝ) < gt.y2 - gt.y1 := by linarith
  have hw : Real.exp (min (Real.log ((gt.x2 - gt.x1) / (anchor.x2 - anchor.x1))) clip)
      = (gt.x2 - gt.x1) / (anchor.x2 - anchor.x1) := by
    rw [min_eq_left hcw, Real.exp_log (div_pos hgw' haw')]
  have hh : Real.exp (min (Real.log ((gt.y2 - gt.y1) / (anchor.y2 - anchor.y1))) clip)
      = (gt.y2 - gt.y1) / (anchor.y2 - anchor.y1) := by
    rw [min_eq_left hch, Real.exp_log (div_pos hgh' hah')]
  obtain ⟨gx1, gy1, gx2, gy2⟩ := gt
  simp only [decode, encode, hw, hh, Box.mk.injEq]
  have hawne : anchor.x2 - anchor.x1 ≠ 0 := ne_of_gt haw'
  have hahne : anchor.y2 - anchor.y1 ≠ 0 := ne_of_gt hah'
  refine ⟨?_, ?_, ?_, ?_⟩ <;> field_simp <;> ring

/-- Witness for C2 (amended) at the identity pair: anchor and ground truth
both `(0,0,1,1)` with clamp bound `1`. -/
theorem C2_decode_encode_roundtrip_witness :
    decode 1 (encode ⟨0, 0, 1, 1⟩ ⟨0, 0, 1, 1⟩) ⟨0, 0, 1, 1⟩ = (⟨0, 0, 1, 1⟩ : Box ℝ) := by
  have hlog : Real.log (((1:ℝ) - 0) / (1 - 0)) ≤ 1 := by
    rw [show ((1:ℝ) - 0) / (1 - 0) = 1 by norm_num, Real.log_one]
    norm_num
  exact C2_decode_encode_roundtrip 1 ⟨0, 0, 1, 1⟩ ⟨0, 0, 1, 1⟩
    (by norm_num) (by norm_num) (by norm_num) (by norm_num) hlog hlog

/-! ## Anchor generator

Modelled from the spec: `DefaultBoxGenerator` lives in
`torchvision/models/detection/anchor_utils.py`, imported by `ssdlite.py` but
absent from the sources at hand; the definitions follow §4.2 of the spec:
one scale per level, linearly interpolated between `min_ratio` and
`max_ratio`; per spatial cell one square anchor followed by one rectangular
anchor per aspect ratio (width scaled by `sqrt(ar)`, height by
`1/sqrt(ar)`); ordering level-major, then row-major by cell, then
square-first followed by the ratio anchors in input order.  The square-root
function is abstracted as a parameter `sq` (rationals stand in for floats). -/

/-- A default box in center-size form `(cx, cy, w, h)`. -/
structure DAnchor where
  cx : ℚ
  cy : ℚ
  w : ℚ
  h : ℚ
deriving DecidableEq, Repr

/-- Scale of level `k` out of `numLevels`, linearly interpolated between
`minR` and `maxR`. -/
def levelScale (minR maxR : ℚ) (numLevels k : ℕ) : ℚ :=
  if numLevels ≤ 1 then minR
  else minR + (maxR - minR) * (k : ℚ) / ((numLevels : ℚ) - 1)

/-- Anchors emitted at one spatial location: the square anchor first, then one
rectangular anchor per aspect ratio in input order. -/
def locationAnchors (sq : ℚ → ℚ) (s : ℚ) (ars : List ℚ) (cx cy : ℚ) : List DAnchor :=
  ⟨cx, cy, s, s⟩ :: ars.map fun ar => ⟨cx, cy, s * sq ar, s / sq ar⟩

/-- Anchors of one feature level: row-major traversal of the `fsize.1 × fsize.2`
grid of cell centers. -/
def levelAnchors (sq : ℚ → ℚ) (s : ℚ) (ars : List ℚ) (fsize : ℕ × ℕ) : List DAnchor :=
  ((List.range fsize.1).map fun i =>
    (((List.range fsize.2).map fun j =>
      locationAnchors sq s ars (((j : ℚ) + 1/2) / (fsize.2 : ℚ))
        (((i : ℚ) + 1/2) / (fsize.1 : ℚ))).flatten)).flatten

/-- The full anchor set, accumulated level by level as the source's loop
appends each level's boxes to the running output. -/
def defaultBoxes (sq : ℚ → ℚ) (featSizes : List (ℕ × ℕ)) (ars : List (List ℚ))
    (minR maxR : ℚ) : List DAnchor :=
  (List.range featSizes.length).foldl
    (fun acc k =>
      acc ++ levelAnchors sq (levelScale minR maxR featSizes.length k)
        (ars.getD k []) (featSizes.getD k (0, 0)))
    []

/-- The ordering contract of §4.2, written declaratively: the level-major
concatenation of the per-level row-major anchor lists. -/
def anchorOrderContract (sq : ℚ → ℚ) (featSizes : List (ℕ × ℕ)) (ars : List (List ℚ))
    (minR maxR : ℚ) : List DAnchor :=
  ((List.range featSizes.length).map fun k =>
    levelAnchors sq (levelScale minR maxR featSizes.length k)
      (ars.getD k []) (featSizes.getD k (0, 0))).flatten

theorem foldl_append_eq_join {α β : Type} (l : List α) (f : α → List β) :
    ∀ acc : List β, l.foldl (fun a x => a ++ f x) acc = acc ++ (l.map f).flatten := by
  induction l with
  | nil => intro acc; simp
  | cons x xs ih =>
      intro acc
      simp only [List.foldl_cons, List.map_cons, List.flatten]
      rw [ih (acc ++ f x)]
      simp [List.append_assoc]

/-- C6: for 2 feature levels of sizes `[(2,2), (1,1)]`, one aspect ratio `{1}`,
`min_ratio 1/5`, `max_ratio 9/10`, level 0 yields 2 anchors per cell × 4 cells
= 8 anchors, level 1 yields 2 anchors, the output is their level-major
concatenation, and the total anchor set has size 10 — for any square-root
function `sq`. -/
theorem C6_anchor_example_counts (sq : ℚ → ℚ) :
    (levelAnchors sq (levelScale (1/5) (9/10) 2 0) [1] (2, 2)).length = 8 ∧
    (levelAnchors sq (levelScale (1/5) (9/10) 2 1) [1] (1, 1)).length = 2 ∧
    defaultBoxes sq [(2, 2), (1, 1)] [[1], [1]] (1/5) (9/10)
      = levelAnchors sq (levelScale (1/5) (9/10) 2 0) [1] (2, 2)
        ++ levelAnchors sq (levelScale (1/5) (9/10) 2 1) [1] (1, 1) ∧
    (defaultBoxes sq [(2, 2), (1, 1)] [[1], [1]] (1/5) (9/10)).length = 10 :=
  ⟨rfl, rfl, rfl, rfl⟩

/-- C7: the anchor generator is a pure function — two calls with identical
parameters yield the same ordered sequence — and that sequence follows the
documented ordering contract: level-major, then row-major spatial position,
then the square anchor first followed by the ratio anchors in input order. -/
theorem C7_anchor_generator_deterministic
    (sq : ℚ → ℚ) (featSizes : List (ℕ × ℕ)) (ars : List (List ℚ)) (minR maxR : ℚ) :
    defaultBoxes sq featSizes ars minR maxR = defaultBoxes sq featSizes ars minR maxR ∧
    defaultBoxes sq featSizes ars minR maxR
      = anchorOrderContract sq featSizes ars minR maxR := by
  refine ⟨rfl, ?_⟩
  unfold defaultBoxes anchorOrderContract
  rw [foldl_append_eq_join]
  simp

/-! ## SSDLite detection head channel contract

From `torchvision/models/detection/ssdlite.py`: `SSDLiteClassificationHead`
builds one prediction block per `(channels, anchors)` pair of
`zip(in_channels, num_anchors)` with `num_classes * anchors` output channels,
`SSDLiteRegressionHead` likewise with `4 * anchors` output channels, and
`SSDLiteHead.forward` applies both module lists to the per-level feature
list in that same order. -/

/-- Output channels of the classification branch, one entry per feature
level, in `zip(in_channels, num_anchors)` order
(`_prediction_block(channels, num_classes * anchors, 3, norm_layer)`). -/
def SSDLiteClassificationHead_channels (in_channels num_anchors : List ℕ)
    (num_classes : ℕ) : List ℕ :=
  (in_channels.zip num_anchors).map fun ca => num_classes * ca.2

/-- Output channels of the regression branch, one entry per feature level,
in `zip(in_channels, num_anchors)` order
(`_prediction_block(channels, 4 * anchors, 3, norm_layer)`). -/
def SSDLiteRegressionHead_channels (in_channels num_anchors : List ℕ) : List ℕ :=
  (in_channels.zip num_anchors).map fun ca => 4 * ca.2

theorem map_snd_zip_of_length_le {α β γ : Type} (f : β → γ) :
    ∀ (l1 : List α) (l2 : List β), l1.length = l2.length →
      (l1.zip l2).map (fun p => f p.2) = l2.map f
  | [], [], _ => rfl
  | [], _ :: _, h => by simp at h
  | _ :: _, [], h => by simp at h
  | a :: l1, b :: l2, h => by
      simp only [List.zip_cons_cons, List.map_cons]
      rw [map_snd_zip_of_length_le f l1 l2 (by simpa using h)]

/-- C1: when one input-channel count is supplied per feature level, the
classification branch emits `num_anchors_at_level × num_classes` output
channels and the regression branch `num_anchors_at_level × 4` output
channels, per level, in exactly the level order of the `num_anchors` list —
the order `ssdlite320_mobilenet_v3_large` takes from
`anchor_generator.num_anchors_per_location()`. -/
theorem C1_ssdlite_head_channels (in_channels num_anchors : List ℕ)
    (num_classes : ℕ) (hlen : in_channels.length = num_anchors.length) :
    SSDLiteClassificationHead_channels in_channels num_anchors num_classes
      = num_anchors.map (fun anchors => anchors * num_classes) ∧
    SSDLiteRegressionHead_channels in_channels num_anchors
      = num_anchors.map (fun anchors => anchors * 4) := by
  constructor
  · rw [SSDLiteClassificationHead_channels,
      map_snd_zip_of_length_le (fun a => num_classes * a) in_channels num_anchors hlen]
    simp [Nat.mul_comm]
  · rw [SSDLiteRegressionHead_channels,
      map_snd_zip_of_length_le (fun a => 4 * a) in_channels num_anchors hlen]
    simp [Nat.mul_comm]

/-- Witness for C1 at the concrete configuration `in_channels = [672, 480]`,
`num_anchors = [6, 6]`, `num_classes = 91`. -/
theorem C1_ssdlite_head_channels_witness :
    SSDLiteClassificationHead_channels [672, 480] [6, 6] 91 = [6 * 91, 6 * 91] ∧
    SSDLiteRegressionHead_channels [672, 480] [6, 6] = [6 * 4, 6 * 4] :=
  C1_ssdlite_head_channels [672, 480] [6, 6] 91 rfl

/-! ## Model constructor checkpoint and prologue logic

From `torchvision/models/detection/ssdlite.py`
(`ssdlite320_mobilenet_v3_large`, `ssdlite_mobilenet_v3_large`). -/

/-- A Python value passed as `pretrained`: either a bool or a string
(URL / checkpoint path). -/
inductive PyPretrained where
  | bool (b : Bool)
  | str (s : String)
deriving DecidableEq, Repr

/-- Python truthiness: `False` and the empty string are falsy. -/
def PyPretrained.truthy : PyPretrained → Bool
  | .bool b => b
  | .str s => !(s == "")

/-- The strict identity test `pretrained is True` on line 232. -/
def PyPretrained.isTrue : PyPretrained → Bool
  | .bool b => b
  | .str _ => false

/-- A Python value passed as `weights_name`: either a string, or — as in
`ssdlite_mobilenet_v3_large`, which passes its own function object — a
non-string object. -/
inductive PyWeightsName where
  | str (s : String)
  | funcObject
deriving DecidableEq, Repr

/-- The `model_urls` table of `ssdlite.py` (lines 21-24). -/
def model_urls : List (String × String) :=
  [("ssdlite320_mobilenet_v3_large_coco",
    "https://download.pytorch.org/models/ssdlite320_mobilenet_v3_large_coco-a79551df.pth")]

/-- The lookup `model_urls.get(weights_name, None)`: a dict keyed by strings; a function
object is equal to no string key, so the lookup yields `None` for it. -/
def model_urls_get : PyWeightsName → Option String
  | .str s => (model_urls.find? fun p => p.1 == s).map (·.2)
  | .funcObject => none

/-- The checkpoint branch of `ssdlite320_mobilenet_v3_large` (lines 232-242):
under `pretrained is True`, a missing `model_urls` entry raises `ValueError`,
otherwise the checkpoint loads; non-`True` truthy values take the URL/path
branches, which load state dicts and are modelled as succeeding. -/
def ssdlite320_checkpoint_step (pretrained : PyPretrained)
    (weights_name : PyWeightsName) : Except String Unit :=
  if pretrained.isTrue then
    match model_urls_get weights_name with
    | none => .error "No checkpoint is available for model"
    | some _ => .ok ()
  else .ok ()

/-- The wrapper `ssdlite_mobilenet_v3_large` (lines 255-256) forwards to
`ssdlite320_mobilenet_v3_large` with `weights_name` bound to its own function
object instead of a string key. -/
def ssdlite_mobilenet_v3_large_checkpoint (pretrained : PyPretrained) :
    Except String Unit :=
  ssdlite320_checkpoint_step pretrained PyWeightsName.funcObject

/-- C8: every call to `ssdlite_mobilenet_v3_large` with `pretrained=True`
raises `ValueError`: the function object passed as `weights_name` is not a
key of `model_urls`, so the lookup returns `None` and the no-checkpoint
error branch is taken. -/
theorem C8_ssdlite_mobilenet_pretrained_raises :
    ssdlite_mobilenet_v3_large_checkpoint (.bool true)
      = .error "No checkpoint is available for model" ∧
    model_urls_get PyWeightsName.funcObject = none :=
  ⟨rfl, rfl⟩

/-- The state computed by the prologue of `ssdlite320_mobilenet_v3_large`
just before the backbone is built on line 209. -/
structure Ssdlite320Prologue where
  size : ℕ × ℕ
  warned : Bool
  backbone_pretrained_arg : Bool
deriving DecidableEq, Repr

/-- Lines 193-209 of `ssdlite320_mobilenet_v3_large`: a missing `size` warns
and defaults to `(320, 320)`; truthy `pretrained` forces
`pretrained_backbone = False`; the backbone extractor is then called with the
resulting `pretrained_backbone`. -/
def ssdlite320_prologue (pretrained : PyPretrained) (pretrained_backbone : Bool)
    (size : Option (ℕ × ℕ)) : Ssdlite320Prologue :=
  let warned := size.isNone
  let size := size.getD (320, 320)
  let pretrained_backbone := if pretrained.truthy then false else pretrained_backbone
  ⟨size, warned, pretrained_backbone⟩

/-- C10: whenever `pretrained` is truthy (`True`, a URL, or a checkpoint
path), the backbone is built with `pretrained_backbone = False`; and whenever
`size` is `None`, a warning is emitted and the input size defaults to
`(320, 320)`. -/
theorem C10_ssdlite320_prologue (pretrained : PyPretrained)
    (pretrained_backbone : Bool) (size : Option (ℕ × ℕ)) :
    (pretrained.truthy = true →
      (ssdlite320_prologue pretrained pretrained_backbone size).backbone_pretrained_arg
        = false) ∧
    (size = none →
      (ssdlite320_prologue pretrained pretrained_backbone size).warned = true ∧
      (ssdlite320_prologue pretrained pretrained_backbone size).size = (320, 320)) := by
  constructor
  · intro ht
    simp [ssdlite320_prologue, ht]
  · intro hs
    subst hs
    simp [ssdlite320_prologue]

/-- Witness for C10: `pretrained` a non-empty checkpoint path,
`pretrained_backbone = true`, `size = None`. -/
theorem C10_ssdlite320_prologue_witness :
    (ssdlite320_prologue (.str "weights.pth") true none).backbone_pretrained_arg
      = false ∧
    (ssdlite320_prologue (.str "weights.pth") true none).warned = true ∧
    (ssdlite320_prologue (.str "weights.pth") true none).size = (320, 320) :=
  ⟨(C10_ssdlite320_prologue (.str "weights.pth") true none).1 rfl,
   (C10_ssdlite320_prologue (.str "weights.pth") true none).2 rfl⟩

/-! ## DataListClassification.make_dataset

From `torchvision/datasets/datalist.py` (lines 48-84): the body's first
statement, `directory = os.path.expanduser(directory)`, reads the local
variable `directory` on its right-hand side; `directory` is assigned in the
function (that very statement) and is not a parameter, so the read raises
`UnboundLocalError` before anything else runs, on every invocation. -/

/-- A Python runtime error raised by the dataset loader. -/
inductive PyErr where
  | unboundLocalError (name : String)
  | nameError (name : String)
  | valueError (msg : String)
deriving DecidableEq, Repr

/-- The local names bound when the body of `make_dataset` starts executing:
exactly its parameters. -/
def make_dataset_params : List String :=
  ["self", "files_path", "split_file", "class_to_idx", "extensions", "is_valid_file"]

/-- Reading a local variable: defined only when the name is already bound;
reading an assigned-later local raises `UnboundLocalError`. -/
def readLocal (boundLocals : List String) (name : String) : Except PyErr Unit :=
  if name ∈ boundLocals then .ok () else .error (.unboundLocalError name)

/-- Lines 48-84 of `datalist.py`, with the file system abstracted as
`fileLines` (the lines of `split_file`).  Line 60 reads `directory` before
any assignment to it; even if execution continued, the comprehensions on
lines 81-84 read the name `split_lines`, which is never assigned in
`make_dataset`, raising `NameError`. -/
def make_dataset (class_to_idx : Option (List (String × ℕ)))
    (extensions : Option (List String)) (is_valid_file : Option (String → Bool))
    (fileLines : List String) : Except PyErr (List (List String)) := do
  -- line 60: `directory = os.path.expanduser(directory)`
  let _ ← readLocal make_dataset_params "directory"
  -- lines 62-65
  let _ ← match class_to_idx with
    | none => pure ()
    | some m =>
        if m.isEmpty then
          Except.error (.valueError
            "class_to_index must have at least one entry to collect any samples.")
        else pure ()
  -- lines 67-70
  let _ ← match extensions, is_valid_file with
    | none, none =>
        Except.error (.valueError
          "Both extensions and is_valid_file cannot be None or not None at the same time")
    | some _, some _ =>
        Except.error (.valueError
          "Both extensions and is_valid_file cannot be None or not None at the same time")
    | _, _ => pure ()
  -- lines 79-84: `instances = [... for split_line in split_lines]` reads the
  -- unassigned name `split_lines`
  let _ := fileLines
  Except.error (.nameError "split_lines")

/-- The constructor `DataListClassification.__init__` (lines 10-32) calls `find_classes` and
then `make_dataset`; its outcome, with the `find_classes` call abstracted as
an arbitrary result `fc`. -/
def dataListClassification_init (fc : Except PyErr (List String × List (String × ℕ)))
    (extensions : Option (List String)) (is_valid_file : Option (String → Bool))
    (fileLines : List String) : Except PyErr (List (List String)) :=
  match fc with
  | .error e => .error e
  | .ok classes => make_dataset (some classes.2) extensions is_valid_file fileLines

/-- C9: `make_dataset` raises on every invocation — the first statement of its
body reads the local `directory` before any assignment to it — so no sample
list is ever produced, and `DataListClassification` construction fails for
every outcome of `find_classes`. -/
theorem C9_make_dataset_always_raises (class_to_idx : Option (List (String × ℕ)))
    (extensions : Option (List String)) (is_valid_file : Option (String → Bool))
    (fileLines : List String)
    (fc : Except PyErr (List String × List (String × ℕ))) :
    make_dataset class_to_idx extensions is_valid_file fileLines
      = .error (.unboundLocalError "directory") ∧
    ∀ samples, dataListClassification_init fc extensions is_valid_file fileLines
      ≠ .ok samples := by
  constructor
  · rfl
  · intro samples hok
    cases fc with
    | error e => exact Except.noConfusion hok
    | ok classes => exact Except.noConfusion hok

/-- C5: `box_iou` is symmetric; for well-formed boxes it lies in `[0,1]` and is
`0` on disjoint boxes; and `box_iou a a = 1` for every non-degenerate box. -/
theorem C5_box_iou_properties :
    (∀ a b : Box ℚ, box_iou a b = box_iou b a) ∧
    (∀ a b : Box ℚ, a.wellFormed → b.wellFormed →
      0 ≤ box_iou a b ∧ box_iou a b ≤ 1 ∧ (a.disjoint b → box_iou a b = 0)) ∧
    (∀ a : Box ℚ, a.x1 < a.x2 → a.y1 < a.y2 → box_iou a a = 1) :=
  ⟨box_iou_symm,
   fun a b ha hb =>
     ⟨box_iou_nonneg a b ha hb, box_iou_le_one a b ha hb,
      fun hd => box_iou_of_disjoint a b hd⟩,
   fun a hw hh => box_iou_self a hw hh⟩

/-- Witness for C5 at concrete boxes: `a = (0,0,2,2)`, `b = (1,1,3,3)`
(overlapping) and `c = (10,10,11,11)` (disjoint from `a`). -/
theorem C5_box_iou_properties_witness :
    box_iou ⟨0,0,2,2⟩ ⟨1,1,3,3⟩ = box_iou ⟨1,1,3,3⟩ ⟨0,0,2,2⟩ ∧
    (0 ≤ box_iou ⟨0,0,2,2⟩ ⟨1,1,3,3⟩ ∧ box_iou ⟨0,0,2,2⟩ ⟨1,1,3,3⟩ ≤ 1 ∧
      box_iou ⟨0,0,2,2⟩ ⟨10,10,11,11⟩ = 0) ∧
    box_iou ⟨0,0,2,2⟩ ⟨0,0,2,2⟩ = 1 := by
  refine ⟨C5_box_iou_properties.1 _ _, ⟨?_, ?_, ?_⟩, ?_⟩
  · exact (C5_box_iou_properties.2.1 ⟨0,0,2,2⟩ ⟨1,1,3,3⟩ (by decide) (by decide)).1
  · exact (C5_box_iou_properties.2.1 ⟨0,0,2,2⟩ ⟨1,1,3,3⟩ (by decide) (by decide)).2.1
  · exact (C5_box_iou_properties.2.1 ⟨0,0,2,2⟩ ⟨10,10,11,11⟩ (by decide) (by decide)).2.2
      (by norm_num [Box.disjoint, min_def, max_def])
  · exact C5_box_iou_properties.2.2 ⟨0,0,2,2⟩ (by decide) (by decide)

/-- Witness for C9 at concrete arguments (no class map, no extensions, no
validity predicate, an empty split file, and a successful `find_classes`). -/
theorem C9_make_dataset_always_raises_witness :
    make_dataset none none none [] = .error (.unboundLocalError "directory") ∧
    dataListClassification_init (.ok ([], [])) none none [] ≠ .ok [] :=
  ⟨(C9_make_dataset_always_raises none none none [] (.ok ([], []))).1,
   (C9_make_dataset_always_raises none none none [] (.ok ([], []))).2 []⟩

end EdgeaiTorchvision
